import Mathlib

/-!
Verification of the agent orchestration loop with streaming transport.

The development shallowly embeds the chat route (`src/unnamed/part_002`,
`chatRoute`), the SSE frame helpers (`src/backend/src/utils/stream.ts`),
the in-memory conversation store (`src/backend/src/models/memory.ts`),
the request schema (`src/backend/src/types/chat.ts`) and the manual
(Gemini) executor of `createAgent` (`src/backend/src/models/agent.ts`,
second revision, lines 195-433).

Modelling conventions:
- Message `content` is modelled as a `String` (the string-content case of
  the source; the array/object content-extraction branches of
  `agent.ts` normalise other shapes to a string and are not needed by
  the claims).
- Coerced tool arguments are modelled as an opaque `String`. The
  arguments of an `invalid_tool_calls` entry are kept raw: either a
  non-string value passed through unchanged, or a string whose
  `JSON.parse` result is recorded as an oracle — the parsed value, or
  the thrown `SyntaxError` message. The parse runs outside any
  try/catch in the source, so a throw rejects the whole
  `executor.invoke` promise; the embedding propagates it as a rejected
  invoke outcome.
- The completion engine is an oracle `Nat → LLMCallResult` giving the
  outcome of the n-th `llmWithTools.invoke` call of a turn: the promise
  rejects (`throwErr`), resolves to a falsy value (`noResponse`), or
  resolves to a response object.
- The streaming callbacks installed by `chatRoute` (handleLLMNewToken →
  sendToken, handleToolStart → sendToolCall, handleToolEnd →
  sendToolResult) are always present on this route, so the executor
  embedding emits the corresponding `StreamEvent`s directly, with the
  route-side name fallback (`tool?.name || ... || 'unknown'`) applied.
-/

namespace LangchainSample

/-- The tagged frames of the outbound SSE protocol
(`sendToken`, `sendToolCall`, `sendToolResult`, `sendError`, `sendDone`
in `stream.ts`). -/
inductive StreamEvent where
  | token (text : String)
  | toolCall (tool : String) (input : String)
  | toolResult (result : String)
  | error (message : String)
  | done
deriving Repr, DecidableEq

/-- Roles of stored chat messages (`ChatMessage` in `types/chat.ts`). -/
inductive Role where
  | user
  | assistant
  | system
deriving Repr, DecidableEq

/-- A stored chat message (`ChatMessage` in `types/chat.ts`; the
timestamp is irrelevant to the claims and omitted). -/
structure ChatMessage where
  role : Role
  content : String
deriving Repr, DecidableEq

/-- A structured tool-call request as produced by the completion engine
(`toolCall.name` / `toolCall.args`, arguments opaque). -/
structure ToolCall where
  name : String
  args : String
deriving Repr, DecidableEq

/-- LangChain messages as used in the working sequence of the manual
executor (`HumanMessage`, `AIMessage` with optional tool calls,
`SystemMessage`). -/
inductive BaseMessage where
  | human (content : String)
  | ai (content : String) (tool_calls : List ToolCall)
  | system (content : String)
deriving Repr, DecidableEq

/-- The `content` field of a working message. -/
def BaseMessage.content : BaseMessage → String
  | .human c => c
  | .ai c _ => c
  | .system c => c

/-- Equality of `Except` values is decidable when it is decidable on
both components. -/
instance {ε α : Type} [DecidableEq ε] [DecidableEq α] :
    DecidableEq (Except ε α) := fun a b =>
  match a, b with
  | Except.ok x, Except.ok y =>
    if h : x = y then Decidable.isTrue (congrArg Except.ok h)
    else Decidable.isFalse fun hc => h (Except.ok.inj hc)
  | Except.error x, Except.error y =>
    if h : x = y then Decidable.isTrue (congrArg Except.error h)
    else Decidable.isFalse fun hc => h (Except.error.inj hc)
  | Except.ok _, Except.error _ =>
    Decidable.isFalse fun hc => Except.noConfusion hc
  | Except.error _, Except.ok _ =>
    Decidable.isFalse fun hc => Except.noConfusion hc

/-- The `args` of an `invalid_tool_calls` entry before coercion:
`typeof invalid.args === 'string' ? JSON.parse(invalid.args) : invalid.args`.
A non-string value is passed through unchanged; a string goes through
`JSON.parse`, recorded as an oracle: the parsed value, or the thrown
`SyntaxError` message. -/
inductive RawArgs where
  | object (value : String)
  | string (raw : String) (parsed : Except String String)
deriving Repr, DecidableEq

/-- One entry of the `invalid_tool_calls` array: a name and raw,
not-yet-coerced arguments. -/
structure InvalidToolCall where
  name : String
  args : RawArgs
deriving Repr, DecidableEq

/-- A resolved completion-engine response object: text content plus the
`tool_calls` and `invalid_tool_calls` arrays inspected by the manual
executor. -/
structure LLMResponse where
  content : String
  tool_calls : List ToolCall
  invalid_tool_calls : List InvalidToolCall
deriving Repr, DecidableEq

/-- Outcome of one `llmWithTools.invoke` call inside the manual
executor: the call throws, resolves to a falsy value, or resolves to a
response object. -/
inductive LLMCallResult where
  | throwErr
  | noResponse
  | ok (response : LLMResponse)
deriving Repr, DecidableEq

/-- Outcome of invoking a registered tool executor: a string result, or
a thrown error carrying its message text. -/
inductive ToolOutcome where
  | ok (output : String)
  | thrown (message : String)
deriving Repr, DecidableEq

/-- A registered tool: a name plus an executor from (opaque) arguments
to an outcome (`DynamicStructuredTool` restricted to what the loop
uses). -/
structure Tool where
  name : String
  exec : String → ToolOutcome

/-- `toolMap.get(toolName)` where
`toolMap = new Map(tools.map(tool => [tool.name, tool]))`: a JS `Map`
built from a list keeps the last binding for a duplicated key. -/
def toolMapGet (tools : List Tool) (n : String) : Option Tool :=
  (tools.filter fun t => t.name == n).getLast?

/-- The `invalid_tool_calls.map(...)` coercion of the manual executor,
evaluated left to right: the first `JSON.parse` throw — the parse runs
outside any try/catch — rejects the whole invoke with the parse error
message. -/
def coerceInvalidToolCalls : List InvalidToolCall → Except String (List ToolCall)
  | [] => Except.ok []
  | c :: rest =>
    match c.args with
    | RawArgs.object v =>
      (coerceInvalidToolCalls rest).map fun tcs => ToolCall.mk c.name v :: tcs
    | RawArgs.string _ (Except.ok v) =>
      (coerceInvalidToolCalls rest).map fun tcs => ToolCall.mk c.name v :: tcs
    | RawArgs.string _ (Except.error m) => Except.error m

/-- The tool-call list the manual executor acts on: `response.tool_calls`
when non-empty; otherwise the coerced `invalid_tool_calls`, whose
`JSON.parse` step can throw (`Except.error`), rejecting the invoke. -/
def effectiveToolCalls (r : LLMResponse) : Except String (List ToolCall) :=
  if r.tool_calls = [] then coerceInvalidToolCalls r.invalid_tool_calls
  else Except.ok r.tool_calls

/-- Character-by-character synthesis of a token stream from a final
text (`for (let i = 0; i < responseContent.length; i++) ...
handleLLMNewToken(responseContent[i])`). -/
def streamChars (s : String) : List StreamEvent :=
  s.toList.map fun c => StreamEvent.token (String.mk [c])

/-- Fallback output when `llmWithTools.invoke` throws. -/
def llmErrorOutput : String :=
  "I encountered an error processing your request. Please try again."

/-- Fallback output when `llmWithTools.invoke` resolves to a falsy
value. -/
def noResponseOutput : String :=
  "I did not receive a response. Please try again."

/-- Fallback output when the final completion carried no text. -/
def emptyResponseOutput : String :=
  "I apologize, but I could not generate a response."

/-- Fallback output when the round budget is exhausted and the last
working message carried no text. -/
def maxIterationsOutput : String :=
  "I reached the maximum number of tool calls. Please try a simpler query."

/-- Processing of a single tool call inside a round: emit a `tool_call`
frame via `handleToolStart` (the route derives the frame name from
`tool?.name`, falling back to `"unknown"` when the lookup failed), run
the executor when found, emit a `tool_result` frame via `handleToolEnd`
only on success, and build the working-sequence record
(`Tool <name> returned: <result>` on success, `Tool <name> error: <msg>`
on a thrown executor or an unknown tool). -/
def execToolCall (tools : List Tool) (tc : ToolCall) :
    List StreamEvent × BaseMessage :=
  match toolMapGet tools tc.name with
  | some t =>
    match t.exec tc.args with
    | .ok result =>
      ([StreamEvent.toolCall t.name tc.args, StreamEvent.toolResult result],
       BaseMessage.ai ("Tool " ++ tc.name ++ " returned: " ++ result) [])
    | .thrown m =>
      ([StreamEvent.toolCall t.name tc.args],
       BaseMessage.ai ("Tool " ++ tc.name ++ " error: " ++ m) [])
  | none =>
    ([StreamEvent.toolCall "unknown" tc.args],
     BaseMessage.ai
       ("Tool " ++ tc.name ++ " error: Tool " ++ tc.name ++ " not found") [])

/-- Sequential processing of the tool calls of one round, in request
order (the `for (const toolCall of toolCalls)` loop): accumulated events
and the `toolResults` message list. -/
def execToolCalls (tools : List Tool) : List ToolCall →
    List StreamEvent × List BaseMessage
  | [] => ([], [])
  | tc :: rest =>
    let step := execToolCall tools tc
    let restRes := execToolCalls tools rest
    (step.1 ++ restRes.1, step.2 :: restRes.2)

/-- Result of one `executor.invoke` of the manual executor: the returned
`output`, the frames emitted through the callbacks, the final working
message sequence, and the number of completion-engine calls made
(instrumentation for the round-budget claims). -/
structure InvokeResult where
  output : String
  events : List StreamEvent
  messages : List BaseMessage
  calls : Nat
deriving Repr, DecidableEq

/-- Outcome of one `executor.invoke` promise of the manual executor: it
resolves with an `InvokeResult`, or rejects — the uncaught
`JSON.parse` throw of the invalid-tool-call coercion — carrying the
rejection message together with the frames emitted, the working
sequence built and the completion calls made up to the throw. -/
inductive InvokeOutcome where
  | ok (result : InvokeResult)
  | thrown (message : String) (events : List StreamEvent)
      (messages : List BaseMessage) (calls : Nat)
deriving Repr, DecidableEq

/-- The frames emitted through the callbacks during the invoke, in
either outcome. -/
def InvokeOutcome.events : InvokeOutcome → List StreamEvent
  | .ok r => r.events
  | .thrown _ evs _ _ => evs

/-- The number of completion-engine calls made during the invoke, in
either outcome. -/
def InvokeOutcome.calls : InvokeOutcome → Nat
  | .ok r => r.calls
  | .thrown _ _ _ c => c

/-- The `while (iterations < maxIterations)` loop of the manual (Gemini)
executor, with the remaining round budget as fuel. `callIdx` is the
index of the next completion-engine call, `messages` the working
sequence, `events` the frames emitted so far, `calls` the number of
completion calls made so far. At fuel 0 the max-iterations epilogue
runs: the content of the last working message is streamed and returned,
with a fallback when it is empty. -/
def geminiLoop (tools : List Tool) (llm : Nat → LLMCallResult) :
    Nat → Nat → List BaseMessage → List StreamEvent → Nat → InvokeOutcome
  | 0, _, messages, events, calls =>
    let lastContent := ((messages.getLast?).map BaseMessage.content).getD ""
    InvokeOutcome.ok
      ⟨if lastContent = "" then maxIterationsOutput else lastContent,
       events ++ streamChars lastContent, messages, calls⟩
  | fuel + 1, callIdx, messages, events, calls =>
    match llm callIdx with
    | .throwErr =>
      InvokeOutcome.ok ⟨llmErrorOutput, events, messages, calls + 1⟩
    | .noResponse =>
      InvokeOutcome.ok ⟨noResponseOutput, events, messages, calls + 1⟩
    | .ok r =>
      match effectiveToolCalls r with
      | .error m => InvokeOutcome.thrown m events messages (calls + 1)
      | .ok toolCalls =>
        if toolCalls = [] then
          InvokeOutcome.ok
            ⟨if r.content = "" then emptyResponseOutput else r.content,
             events ++ streamChars r.content, messages, calls + 1⟩
        else
          let toolStep := execToolCalls tools toolCalls
          geminiLoop tools llm fuel (callIdx + 1)
            (messages ++ [BaseMessage.ai r.content toolCalls] ++ toolStep.2)
            (events ++ toolStep.1) (calls + 1)

/-- `executor.invoke({input, chat_history})` of the manual executor:
working sequence is `[...input.chat_history, new HumanMessage(input)]`,
round budget `maxIterations = 5`. -/
def executorInvoke (tools : List Tool) (llm : Nat → LLMCallResult)
    (chat_history : List BaseMessage) (input : String) : InvokeOutcome :=
  geminiLoop tools llm 5 0 (chat_history ++ [BaseMessage.human input]) [] 0

/-- `memory.getLangChainMessages`: stored messages mapped to LangChain
messages by role. -/
def getLangChainMessages (session : List ChatMessage) : List BaseMessage :=
  session.map fun m =>
    match m.role with
    | .user => BaseMessage.human m.content
    | .assistant => BaseMessage.ai m.content []
    | .system => BaseMessage.system m.content

/-- An inbound request body before validation: the `message` and
`sessionId` fields, each possibly absent. -/
structure RawChatRequest where
  message : Option String
  sessionId : Option String
deriving Repr, DecidableEq

/-- `ChatRequestSchema.safeParse` followed by the
`sessionId = 'default'` destructuring default: `message` must be a
present string of length at least 1. -/
def chatRequestParse (r : RawChatRequest) : Option (String × String) :=
  match r.message with
  | none => none
  | some m => if 1 ≤ m.length then some (m, r.sessionId.getD "default") else none

/-- Outcome of the awaited `agent.executor.invoke` call as seen by the
route: a resolved output together with the frames emitted through the
callbacks while it ran, or a rejection (carrying the frames already
emitted) whose message feeds the catch block. -/
inductive ExecOutcome where
  | ok (output : String) (events : List StreamEvent)
  | thrown (events : List StreamEvent) (message : String)

/-- The frames emitted during the executor call, in either outcome. -/
def ExecOutcome.events : ExecOutcome → List StreamEvent
  | .ok _ evs => evs
  | .thrown evs _ => evs

/-- Result of one POST to `/api/chat`: a 400 validation response (no
frames sent, session untouched), or a streamed SSE transcript together
with the session content after the turn. -/
inductive RouteResult where
  | badRequest (session : List ChatMessage)
  | streamed (events : List StreamEvent) (session : List ChatMessage)
deriving Repr, DecidableEq

/-- The `chatRoute` handler over an abstract executor: validate the
body (reject with 400 before any mutation), append the user message,
invoke the executor with `getHistory()` taken after that append, then
either append the assistant output and send `done`, or (catch block)
send `error` then `done` with no assistant append. -/
def chatRouteWith (exec : String → List BaseMessage → ExecOutcome)
    (session : List ChatMessage) (req : RawChatRequest) : RouteResult :=
  match chatRequestParse req with
  | none => RouteResult.badRequest session
  | some ms =>
    let session1 := session ++ [ChatMessage.mk Role.user ms.1]
    match exec ms.1 (getLangChainMessages session1) with
    | .ok output events =>
      RouteResult.streamed (events ++ [StreamEvent.done])
        (session1 ++ [ChatMessage.mk Role.assistant output])
    | .thrown events m =>
      RouteResult.streamed
        (events ++ [StreamEvent.error m, StreamEvent.done]) session1

/-- The manual executor packaged as the route's executor: it catches
completion-engine call failures internally and resolves with an output,
but its invoke promise rejects when the invalid-tool-call coercion
throws, feeding the route's catch block. -/
def geminiExec (tools : List Tool) (llm : Nat → LLMCallResult)
    (input : String) (chat_history : List BaseMessage) : ExecOutcome :=
  match executorInvoke tools llm chat_history input with
  | InvokeOutcome.ok r => ExecOutcome.ok r.output r.events
  | InvokeOutcome.thrown m evs _ _ => ExecOutcome.thrown evs m

/-- `chatRoute` composed with the manual (Gemini) executor. -/
def chatRouteGemini (tools : List Tool) (llm : Nat → LLMCallResult)
    (session : List ChatMessage) (req : RawChatRequest) : RouteResult :=
  chatRouteWith (geminiExec tools llm) session req

/-- Is this frame the `done` frame? -/
def isDoneEvent : StreamEvent → Bool
  | .done => true
  | _ => false

/-- Is this frame an `error` frame? -/
def isErrorEvent : StreamEvent → Bool
  | .error _ => true
  | _ => false

/-- Is this frame a `tool_result` frame? -/
def isToolResultEvent : StreamEvent → Bool
  | .toolResult _ => true
  | _ => false

/-- Number of `done` frames in a transcript. -/
def countDone (evs : List StreamEvent) : Nat := (evs.filter isDoneEvent).length

/-- Number of `error` frames in a transcript. -/
def countError (evs : List StreamEvent) : Nat := (evs.filter isErrorEvent).length

/-- Number of `tool_result` frames in a transcript. -/
def countToolResult (evs : List StreamEvent) : Nat :=
  (evs.filter isToolResultEvent).length

/-- Number of assistant messages in a session. -/
def countAssistant (s : List ChatMessage) : Nat :=
  (s.filter fun m => m.role == Role.assistant).length

/-- The characters carried by the `token` frames of a transcript, in
order. -/
def tokenChars : List StreamEvent → List Char
  | [] => []
  | StreamEvent.token t :: rest => t.toList ++ tokenChars rest
  | _ :: rest => tokenChars rest

/-- Concatenation of the `token` frames of a transcript. -/
def tokenConcat (evs : List StreamEvent) : String := String.mk (tokenChars evs)

/-! ### Helper lemmas -/

/-- The last frame of a transcript ending in a given frame. -/
theorem getLast_concat_event (l : List StreamEvent) (e : StreamEvent) :
    (l ++ [e]).getLast? = some e := by
  rw [List.getLast?_append_cons]
  rfl

/-- `countDone` distributes over transcript concatenation. -/
theorem countDone_append (a b : List StreamEvent) :
    countDone (a ++ b) = countDone a + countDone b := by
  simp [countDone, List.filter_append]

/-- A synthesized token stream carries no `done` frame. -/
theorem countDone_streamChars (s : String) : countDone (streamChars s) = 0 := by
  suffices h : ∀ l : List Char,
      countDone (l.map fun c => StreamEvent.token (String.mk [c])) = 0 by
    simpa [streamChars] using h s.toList
  intro l
  induction l with
  | nil => rfl
  | cons c cs _ => simp [countDone, List.filter, isDoneEvent]

/-- One tool-call step emits no `done` frame. -/
theorem countDone_execToolCall (tools : List Tool) (tc : ToolCall) :
    countDone (execToolCall tools tc).1 = 0 := by
  unfold execToolCall
  cases h : toolMapGet tools tc.name with
  | none => rfl
  | some t =>
    cases h2 : t.exec tc.args with
    | ok result => simp [h2, countDone, List.filter, isDoneEvent]
    | thrown m => simp [h2, countDone, List.filter, isDoneEvent]

/-- One round of sequential tool execution emits no `done` frame. -/
theorem countDone_execToolCalls (tools : List Tool) (tcs : List ToolCall) :
    countDone (execToolCalls tools tcs).1 = 0 := by
  induction tcs with
  | nil => rfl
  | cons tc rest ih =>
    simp [execToolCalls, countDone_append, countDone_execToolCall, ih]

/-- The manual executor loop never emits a `done` frame itself, whether
its invoke resolves or rejects. -/
theorem countDone_geminiLoop (tools : List Tool) (llm : Nat → LLMCallResult)
    (fuel callIdx : Nat) (messages : List BaseMessage)
    (events : List StreamEvent) (calls : Nat) (h : countDone events = 0) :
    countDone (geminiLoop tools llm fuel callIdx messages events calls).events = 0 := by
  induction fuel generalizing callIdx messages events calls with
  | zero => simp [geminiLoop, InvokeOutcome.events, countDone_append, h,
      countDone_streamChars]
  | succ n ih =>
    simp only [geminiLoop]
    split
    · exact h
    · exact h
    · next r heq =>
      split
      · exact h
      · split
        · show countDone (events ++ streamChars r.content) = 0
          rw [countDone_append, h, countDone_streamChars]
        · exact ih _ _ _ _
            (by rw [countDone_append, h, countDone_execToolCalls])

/-- Whenever the manual executor loop resolves, its output is
non-empty. -/
theorem geminiLoop_output_ne_empty (tools : List Tool)
    (llm : Nat → LLMCallResult) (fuel callIdx : Nat)
    (messages : List BaseMessage) (events : List StreamEvent) (calls : Nat) :
    ∀ res, geminiLoop tools llm fuel callIdx messages events calls =
      InvokeOutcome.ok res → res.output ≠ "" := by
  induction fuel generalizing callIdx messages events calls with
  | zero =>
    intro res h
    simp only [geminiLoop] at h
    injection h with h
    subst h
    show (if ((messages.getLast?).map BaseMessage.content).getD "" = "" then
      maxIterationsOutput
      else ((messages.getLast?).map BaseMessage.content).getD "") ≠ ""
    split
    · decide
    · next h2 => exact h2
  | succ n ih =>
    intro res h
    simp only [geminiLoop] at h
    split at h
    · injection h with h
      subst h
      show llmErrorOutput ≠ ""
      decide
    · injection h with h
      subst h
      show noResponseOutput ≠ ""
      decide
    · next r heq =>
      split at h
      · exact InvokeOutcome.noConfusion h
      · split at h
        · injection h with h
          subst h
          show (if r.content = "" then emptyResponseOutput else r.content) ≠ ""
          split
          · decide
          · next h2 => exact h2
        · exact ih _ _ _ _ res h

/-- The loop performs at most `fuel` further completion calls, whether
it resolves or rejects. -/
theorem geminiLoop_calls_le (tools : List Tool) (llm : Nat → LLMCallResult)
    (fuel callIdx : Nat) (messages : List BaseMessage)
    (events : List StreamEvent) (calls : Nat) :
    (geminiLoop tools llm fuel callIdx messages events calls).calls ≤ calls + fuel := by
  induction fuel generalizing callIdx messages events calls with
  | zero => simp [geminiLoop, InvokeOutcome.calls]
  | succ n ih =>
    simp only [geminiLoop]
    split
    · show calls + 1 ≤ calls + (n + 1)
      omega
    · show calls + 1 ≤ calls + (n + 1)
      omega
    · next r heq =>
      split
      · show calls + 1 ≤ calls + (n + 1)
        omega
      · split
        · show calls + 1 ≤ calls + (n + 1)
          omega
        · exact le_trans (ih _ _ _ _) (by omega)

/-- The call counter never decreases along the loop. -/
theorem geminiLoop_calls_mono (tools : List Tool) (llm : Nat → LLMCallResult)
    (fuel callIdx : Nat) (messages : List BaseMessage)
    (events : List StreamEvent) (calls : Nat) :
    calls ≤ (geminiLoop tools llm fuel callIdx messages events calls).calls := by
  induction fuel generalizing callIdx messages events calls with
  | zero => simp [geminiLoop, InvokeOutcome.calls]
  | succ n ih =>
    simp only [geminiLoop]
    split
    · show calls ≤ calls + 1
      omega
    · show calls ≤ calls + 1
      omega
    · next r heq =>
      split
      · show calls ≤ calls + 1
        omega
      · split
        · show calls ≤ calls + 1
          omega
        · exact le_trans (Nat.le_succ calls) (ih _ _ _ _)

/-- Under a completion engine that always requests a coercible,
non-empty list of tool calls, the loop uses its entire round budget. -/
theorem geminiLoop_calls_eq (tools : List Tool) (llm : Nat → LLMCallResult)
    (fuel callIdx : Nat) (messages : List BaseMessage)
    (events : List StreamEvent) (calls : Nat)
    (h : ∀ n, ∃ r tcs, llm n = LLMCallResult.ok r ∧
      effectiveToolCalls r = Except.ok tcs ∧ tcs ≠ []) :
    (geminiLoop tools llm fuel callIdx messages events calls).calls = calls + fuel := by
  induction fuel generalizing callIdx messages events calls with
  | zero => simp [geminiLoop, InvokeOutcome.calls]
  | succ n ih =>
    obtain ⟨r, tcs, hr, htc, hne⟩ := h callIdx
    simp only [geminiLoop, hr, htc]
    rw [if_neg hne, ih]
    omega

/-- Under a completion engine that always requests a coercible,
non-empty list of tool calls, the loop resolves (via the max-iterations
epilogue). -/
theorem geminiLoop_ok_of_toolloop (tools : List Tool)
    (llm : Nat → LLMCallResult) (fuel callIdx : Nat)
    (messages : List BaseMessage) (events : List StreamEvent) (calls : Nat)
    (h : ∀ n, ∃ r tcs, llm n = LLMCallResult.ok r ∧
      effectiveToolCalls r = Except.ok tcs ∧ tcs ≠ []) :
    ∃ res, geminiLoop tools llm fuel callIdx messages events calls =
      InvokeOutcome.ok res := by
  induction fuel generalizing callIdx messages events calls with
  | zero => exact ⟨_, rfl⟩
  | succ n ih =>
    obtain ⟨r, tcs, hr, htc, hne⟩ := h callIdx
    simp only [geminiLoop, hr, htc]
    rw [if_neg hne]
    exact ih _ _ _ _

/-- With at least one round of budget left, the loop performs at least
one further completion call. -/
theorem geminiLoop_calls_ge_one (tools : List Tool) (llm : Nat → LLMCallResult)
    (fuel callIdx : Nat) (messages : List BaseMessage)
    (events : List StreamEvent) (calls : Nat) (hf : 1 ≤ fuel) :
    calls + 1 ≤ (geminiLoop tools llm fuel callIdx messages events calls).calls := by
  cases fuel with
  | zero => omega
  | succ n =>
    simp only [geminiLoop]
    split
    · show calls + 1 ≤ calls + 1
      omega
    · show calls + 1 ≤ calls + 1
      omega
    · next r heq =>
      split
      · show calls + 1 ≤ calls + 1
        omega
      · split
        · show calls + 1 ≤ calls + 1
          omega
        · exact geminiLoop_calls_mono tools llm n _ _ _ _

/-- The route on a valid request whose manual-executor invoke resolves:
the transcript is the frames of `executor.invoke` followed by `done`,
and the session gains the user message and an assistant message holding
the returned output. -/
theorem chatRouteGemini_ok_eq (tools : List Tool) (llm : Nat → LLMCallResult)
    (session : List ChatMessage) (req : RawChatRequest) (ms : String × String)
    (res : InvokeResult) (hv : chatRequestParse req = some ms)
    (hres : executorInvoke tools llm
      (getLangChainMessages (session ++ [ChatMessage.mk Role.user ms.1]))
      ms.1 = InvokeOutcome.ok res) :
    chatRouteGemini tools llm session req =
      RouteResult.streamed (res.events ++ [StreamEvent.done])
        ((session ++ [ChatMessage.mk Role.user ms.1]) ++
          [ChatMessage.mk Role.assistant res.output]) := by
  unfold chatRouteGemini chatRouteWith geminiExec
  rw [hv]
  simp only [hres]

/-- The route on a valid request whose manual-executor invoke rejects
(the uncoercible invalid-tool-call arguments path): the frames emitted
so far, then `error` with the rejection message, then `done`; only the
user message was appended to the session. -/
theorem chatRouteGemini_thrown_eq (tools : List Tool)
    (llm : Nat → LLMCallResult) (session : List ChatMessage)
    (req : RawChatRequest) (ms : String × String) (m : String)
    (evs : List StreamEvent) (msgs : List BaseMessage) (c : Nat)
    (hv : chatRequestParse req = some ms)
    (hres : executorInvoke tools llm
      (getLangChainMessages (session ++ [ChatMessage.mk Role.user ms.1]))
      ms.1 = InvokeOutcome.thrown m evs msgs c) :
    chatRouteGemini tools llm session req =
      RouteResult.streamed (evs ++ [StreamEvent.error m, StreamEvent.done])
        (session ++ [ChatMessage.mk Role.user ms.1]) := by
  unfold chatRouteGemini chatRouteWith geminiExec
  rw [hv]
  simp only [hres]

/-- The route on a valid request when the executor call rejects: the
frames already emitted, then `error`, then `done`; only the user message
was appended. -/
theorem chatRouteWith_thrown_eq (exevs : List StreamEvent) (emsg : String)
    (session : List ChatMessage) (req : RawChatRequest) (ms : String × String)
    (hv : chatRequestParse req = some ms) :
    chatRouteWith (fun _ _ => ExecOutcome.thrown exevs emsg) session req =
      RouteResult.streamed (exevs ++ [StreamEvent.error emsg, StreamEvent.done])
        (session ++ [ChatMessage.mk Role.user ms.1]) := by
  unfold chatRouteWith
  rw [hv]

/-- `tokenChars` distributes over transcript concatenation. -/
theorem tokenChars_append (a b : List StreamEvent) :
    tokenChars (a ++ b) = tokenChars a ++ tokenChars b := by
  induction a with
  | nil => rfl
  | cons e rest ih => cases e <;> simp [tokenChars, ih]

/-- The characters of a synthesized token stream are exactly the
characters of the text it was synthesized from. -/
theorem tokenChars_streamChars (s : String) :
    tokenChars (streamChars s) = s.toList := by
  suffices h : ∀ l : List Char,
      tokenChars (l.map fun c => StreamEvent.token (String.mk [c])) = l by
    simpa [streamChars] using h s.toList
  intro l
  induction l with
  | nil => rfl
  | cons c cs ih => simp [tokenChars, ih, String.toList]

/-- Rebuilding a string from its character list is the identity. -/
theorem stringMk_toList (s : String) : String.mk s.toList = s := by
  cases s
  rfl

/-- The token concatenation of a synthesized token stream followed by
the `done` frame is the synthesized text. -/
theorem tokenConcat_streamChars_done (s : String) :
    tokenConcat (streamChars s ++ [StreamEvent.done]) = s := by
  simp [tokenConcat, tokenChars_append, tokenChars_streamChars, tokenChars,
    stringMk_toList]

/-- A round whose completion call throws: the loop returns the
catch-block fallback at once. -/
theorem geminiLoop_throw (tools : List Tool) (llm : Nat → LLMCallResult)
    (fuel callIdx : Nat) (messages : List BaseMessage)
    (events : List StreamEvent) (calls : Nat)
    (hllm : llm callIdx = LLMCallResult.throwErr) :
    geminiLoop tools llm (fuel + 1) callIdx messages events calls =
      InvokeOutcome.ok ⟨llmErrorOutput, events, messages, calls + 1⟩ := by
  simp only [geminiLoop, hllm]

/-- A round whose completion resolves but whose invalid-tool-call
coercion throws: the loop rejects at once with the parse error
message. -/
theorem geminiLoop_coerce_throw (tools : List Tool)
    (llm : Nat → LLMCallResult) (fuel callIdx : Nat)
    (messages : List BaseMessage) (events : List StreamEvent) (calls : Nat)
    (r : LLMResponse) (m : String)
    (hllm : llm callIdx = LLMCallResult.ok r)
    (htc : effectiveToolCalls r = Except.error m) :
    geminiLoop tools llm (fuel + 1) callIdx messages events calls =
      InvokeOutcome.thrown m events messages (calls + 1) := by
  simp only [geminiLoop, hllm, htc]

/-- A round whose completion carries no tool call: the loop streams the
final text character by character and returns it (with the fallback for
an empty text). -/
theorem geminiLoop_final (tools : List Tool) (llm : Nat → LLMCallResult)
    (fuel callIdx : Nat) (messages : List BaseMessage)
    (events : List StreamEvent) (calls : Nat) (r : LLMResponse)
    (hllm : llm callIdx = LLMCallResult.ok r)
    (htc : effectiveToolCalls r = Except.ok []) :
    geminiLoop tools llm (fuel + 1) callIdx messages events calls =
      InvokeOutcome.ok
        ⟨if r.content = "" then emptyResponseOutput else r.content,
         events ++ streamChars r.content, messages, calls + 1⟩ := by
  simp only [geminiLoop, hllm, htc]
  simp

/-- A round whose completion carries tool calls: the loop executes them
sequentially, appends the assistant record and then the tool results to
the working sequence, and recurses. -/
theorem geminiLoop_tool_round (tools : List Tool) (llm : Nat → LLMCallResult)
    (fuel callIdx : Nat) (messages : List BaseMessage)
    (events : List StreamEvent) (calls : Nat) (r : LLMResponse)
    (tcs : List ToolCall) (hllm : llm callIdx = LLMCallResult.ok r)
    (htc : effectiveToolCalls r = Except.ok tcs) (hne : tcs ≠ []) :
    geminiLoop tools llm (fuel + 1) callIdx messages events calls =
      geminiLoop tools llm fuel (callIdx + 1)
        (messages ++ [BaseMessage.ai r.content tcs] ++
          (execToolCalls tools tcs).2)
        (events ++ (execToolCalls tools tcs).1)
        (calls + 1) := by
  simp only [geminiLoop, hllm, htc]
  rw [if_neg hne]

/-- `executor.invoke` when the first completion call throws. -/
theorem executorInvoke_throw (tools : List Tool) (llm : Nat → LLMCallResult)
    (chat_history : List BaseMessage) (input : String)
    (hllm : llm 0 = LLMCallResult.throwErr) :
    executorInvoke tools llm chat_history input =
      InvokeOutcome.ok
        ⟨llmErrorOutput, [], chat_history ++ [BaseMessage.human input], 1⟩ :=
  geminiLoop_throw tools llm 4 0 (chat_history ++ [BaseMessage.human input])
    [] 0 hllm

/-- `executor.invoke` when the first completion resolves but its
invalid-tool-call coercion throws: the promise rejects with no frame
emitted. -/
theorem executorInvoke_coerce_throw (tools : List Tool)
    (llm : Nat → LLMCallResult) (chat_history : List BaseMessage)
    (input : String) (r : LLMResponse) (m : String)
    (hllm : llm 0 = LLMCallResult.ok r)
    (htc : effectiveToolCalls r = Except.error m) :
    executorInvoke tools llm chat_history input =
      InvokeOutcome.thrown m [] (chat_history ++ [BaseMessage.human input]) 1 :=
  geminiLoop_coerce_throw tools llm 4 0
    (chat_history ++ [BaseMessage.human input]) [] 0 r m hllm htc

/-- `executor.invoke` when the first completion is already final. -/
theorem executorInvoke_final (tools : List Tool) (llm : Nat → LLMCallResult)
    (chat_history : List BaseMessage) (input : String) (r : LLMResponse)
    (hllm : llm 0 = LLMCallResult.ok r)
    (htc : effectiveToolCalls r = Except.ok []) :
    executorInvoke tools llm chat_history input =
      InvokeOutcome.ok
        ⟨if r.content = "" then emptyResponseOutput else r.content,
         streamChars r.content, chat_history ++ [BaseMessage.human input],
         1⟩ := by
  have h := geminiLoop_final tools llm 4 0
    (chat_history ++ [BaseMessage.human input]) [] 0 r hllm htc
  simpa [executorInvoke] using h

/-! ### Claim theorems -/

/-- C1: For every turn that passes request validation, exactly one
`done` frame is emitted on the outbound channel and it is the last
frame of the transcript — both when the executor resolves (final
answer, or a failure the manual executor absorbed internally) and when
the executor call rejects so the catch block emits `error` before
`done`. -/
theorem done_exactly_once_and_last
    (tools : List Tool) (llm : Nat → LLMCallResult)
    (exevs : List StreamEvent) (emsg : String)
    (session : List ChatMessage) (req : RawChatRequest) (ms : String × String)
    (hv : chatRequestParse req = some ms) (hex : countDone exevs = 0) :
    (∃ evs s, chatRouteGemini tools llm session req = RouteResult.streamed evs s ∧
      countDone evs = 1 ∧ evs.getLast? = some StreamEvent.done) ∧
    (∃ evs s,
      chatRouteWith (fun _ _ => ExecOutcome.thrown exevs emsg) session req =
        RouteResult.streamed evs s ∧
      countDone evs = 1 ∧ evs.getLast? = some StreamEvent.done) := by
  constructor
  · have h1 : countDone (executorInvoke tools llm
        (getLangChainMessages (session ++ [ChatMessage.mk Role.user ms.1]))
        ms.1).events = 0 :=
      countDone_geminiLoop tools llm 5 0 _ [] 0 rfl
    cases hres : executorInvoke tools llm
        (getLangChainMessages (session ++ [ChatMessage.mk Role.user ms.1]))
        ms.1 with
    | ok res =>
      rw [hres] at h1
      have h2 : countDone res.events = 0 := h1
      refine ⟨_, _,
        chatRouteGemini_ok_eq tools llm session req ms res hv hres, ?_, ?_⟩
      · rw [countDone_append, h2]
        rfl
      · exact getLast_concat_event _ _
    | thrown m evs msgs c =>
      rw [hres] at h1
      have h2 : countDone evs = 0 := h1
      refine ⟨_, _,
        chatRouteGemini_thrown_eq tools llm session req ms m evs msgs c hv
          hres, ?_, ?_⟩
      · rw [countDone_append, h2]
        rfl
      · rw [List.getLast?_append_cons]
        rfl
  · refine ⟨_, _, chatRouteWith_thrown_eq exevs emsg session req ms hv, ?_, ?_⟩
    · rw [show exevs ++ [StreamEvent.error emsg, StreamEvent.done] =
        (exevs ++ [StreamEvent.error emsg]) ++ [StreamEvent.done] by
          rw [List.append_assoc]
          rfl]
      rw [countDone_append, countDone_append, hex]
      rfl
    · rw [List.getLast?_append_cons]
      rfl

/-- Witness for C1 at a concrete request, completion engine and thrown
executor. -/
theorem done_exactly_once_and_last_witness :
    (∃ evs s,
      chatRouteGemini [] (fun _ => LLMCallResult.ok ⟨"4", [], []⟩) []
          ⟨some "2 + 2", none⟩ = RouteResult.streamed evs s ∧
      countDone evs = 1 ∧ evs.getLast? = some StreamEvent.done) ∧
    (∃ evs s,
      chatRouteWith (fun _ _ => ExecOutcome.thrown [] "boom") []
          ⟨some "2 + 2", none⟩ = RouteResult.streamed evs s ∧
      countDone evs = 1 ∧ evs.getLast? = some StreamEvent.done) :=
  done_exactly_once_and_last [] (fun _ => LLMCallResult.ok ⟨"4", [], []⟩)
    [] "boom" [] ⟨some "2 + 2", none⟩ ("2 + 2", "default") rfl rfl

/-- C2 counterexample: with a completion engine whose call fails on the
first round, the route emits no `error` frame (the transcript is just
`done`) and an assistant message IS committed to the session — contrary
to the claim that the client receives an `error` frame and that no
assistant message is committed for that turn. -/
theorem llm_failure_counterexample :
    chatRouteGemini [] (fun _ => LLMCallResult.throwErr) [] ⟨some "hi", none⟩ =
      RouteResult.streamed [StreamEvent.done]
        [ChatMessage.mk Role.user "hi",
         ChatMessage.mk Role.assistant llmErrorOutput] ∧
    countError [StreamEvent.done] = 0 ∧
    countAssistant
      [ChatMessage.mk Role.user "hi",
       ChatMessage.mk Role.assistant llmErrorOutput] = 1 :=
  ⟨rfl, rfl, rfl⟩

/-- C2 amended: the two failure kinds of the completion engine behave
differently. When the engine call itself fails (the invoke promise
rejects, e.g. provider unreachable), the manual executor catches the
failure: the route emits only `done` — no in-stream `error` frame —
and commits the fallback text "I encountered an error processing your
request. Please try again." as the assistant message of the turn. When
the engine resolves with a malformed response whose invalid tool-call
string arguments fail JSON parsing, the uncaught parse throw rejects
the executor invocation: the client receives `error` (carrying the
parse error message) followed by `done`, and no assistant message is
committed — the session retains only the user message. -/
theorem llm_failure_amended
    (tools : List Tool) (llm : Nat → LLMCallResult)
    (session : List ChatMessage) (req : RawChatRequest) (ms : String × String)
    (hv : chatRequestParse req = some ms) :
    (llm 0 = LLMCallResult.throwErr →
      chatRouteGemini tools llm session req =
        RouteResult.streamed [StreamEvent.done]
          ((session ++ [ChatMessage.mk Role.user ms.1]) ++
            [ChatMessage.mk Role.assistant llmErrorOutput])) ∧
    (∀ r m, llm 0 = LLMCallResult.ok r →
      effectiveToolCalls r = Except.error m →
      chatRouteGemini tools llm session req =
        RouteResult.streamed [StreamEvent.error m, StreamEvent.done]
          (session ++ [ChatMessage.mk Role.user ms.1])) := by
  constructor
  · intro hllm
    rw [chatRouteGemini_ok_eq tools llm session req ms _ hv
      (executorInvoke_throw tools llm _ ms.1 hllm)]
    rfl
  · intro r m hllm htc
    rw [chatRouteGemini_thrown_eq tools llm session req ms m [] _ 1 hv
      (executorInvoke_coerce_throw tools llm _ ms.1 r m hllm htc)]
    rfl

/-- Witness for C2 amended: a rejecting engine call, and an engine
returning only an invalid tool call whose arguments fail JSON
parsing. -/
theorem llm_failure_amended_witness :
    (chatRouteGemini [] (fun _ => LLMCallResult.throwErr) []
        ⟨some "hi", none⟩ =
      RouteResult.streamed [StreamEvent.done]
        (([] ++ [ChatMessage.mk Role.user "hi"]) ++
          [ChatMessage.mk Role.assistant llmErrorOutput])) ∧
    (chatRouteGemini []
        (fun _ => LLMCallResult.ok
          ⟨"", [], [InvalidToolCall.mk "x"
            (RawArgs.string "not json" (Except.error "Unexpected token"))]⟩)
        [] ⟨some "hi", none⟩ =
      RouteResult.streamed
        [StreamEvent.error "Unexpected token", StreamEvent.done]
        ([] ++ [ChatMessage.mk Role.user "hi"])) :=
  ⟨(llm_failure_amended [] (fun _ => LLMCallResult.throwErr) []
      ⟨some "hi", none⟩ ("hi", "default") rfl).1 rfl,
   (llm_failure_amended []
      (fun _ => LLMCallResult.ok
        ⟨"", [], [InvalidToolCall.mk "x"
          (RawArgs.string "not json" (Except.error "Unexpected token"))]⟩)
      [] ⟨some "hi", none⟩ ("hi", "default") rfl).2
     ⟨"", [], [InvalidToolCall.mk "x"
       (RawArgs.string "not json" (Except.error "Unexpected token"))]⟩
     "Unexpected token" rfl (by decide)⟩

/-- C3 counterexample: a turn whose completion is final but carries the
empty text. Exactly one assistant message is appended, but its content
is the fallback text while no `token` frame was emitted, so the
concatenation of the `token` frames (the empty string) differs from the
committed content — contrary to the claim that they are equal for every
final-answer turn. -/
theorem final_answer_tokens_counterexample :
    chatRouteGemini [] (fun _ => LLMCallResult.ok ⟨"", [], []⟩) []
        ⟨some "hi", none⟩ =
      RouteResult.streamed [StreamEvent.done]
        [ChatMessage.mk Role.user "hi",
         ChatMessage.mk Role.assistant emptyResponseOutput] ∧
    countAssistant
      [ChatMessage.mk Role.user "hi",
       ChatMessage.mk Role.assistant emptyResponseOutput] = 1 ∧
    tokenConcat [StreamEvent.done] ≠ emptyResponseOutput :=
  ⟨rfl, rfl, by decide⟩

/-- C3 amended: for every turn whose completion is final (no tool call)
with non-empty text, exactly one assistant message is appended to the
session, the token stream is synthesized character by character from
the final text, and the concatenation of the `token` frames equals the
committed content. When the final text is empty, the fallback text is
committed instead and no `token` frame is emitted. -/
theorem final_answer_tokens_amended
    (tools : List Tool) (llm : Nat → LLMCallResult)
    (session : List ChatMessage) (req : RawChatRequest) (ms : String × String)
    (r : LLMResponse) (hv : chatRequestParse req = some ms)
    (hllm : llm 0 = LLMCallResult.ok r)
    (htc : effectiveToolCalls r = Except.ok []) :
    (r.content ≠ "" →
      chatRouteGemini tools llm session req =
        RouteResult.streamed (streamChars r.content ++ [StreamEvent.done])
          ((session ++ [ChatMessage.mk Role.user ms.1]) ++
            [ChatMessage.mk Role.assistant r.content]) ∧
      tokenConcat (streamChars r.content ++ [StreamEvent.done]) = r.content) ∧
    (r.content = "" →
      chatRouteGemini tools llm session req =
        RouteResult.streamed [StreamEvent.done]
          ((session ++ [ChatMessage.mk Role.user ms.1]) ++
            [ChatMessage.mk Role.assistant emptyResponseOutput])) := by
  have hroute := chatRouteGemini_ok_eq tools llm session req ms _ hv
    (executorInvoke_final tools llm
      (getLangChainMessages (session ++ [ChatMessage.mk Role.user ms.1]))
      ms.1 r hllm htc)
  constructor
  · intro hc
    refine ⟨?_, tokenConcat_streamChars_done r.content⟩
    rw [hroute]
    simp [hc]
  · intro hc
    rw [hroute, hc]
    rfl

/-- Witness for C3 amended at the concrete final answer `"4"`. -/
theorem final_answer_tokens_amended_witness :
    (("4" : String) ≠ "" →
      chatRouteGemini [] (fun _ => LLMCallResult.ok ⟨"4", [], []⟩) []
          ⟨some "2 + 2", none⟩ =
        RouteResult.streamed (streamChars "4" ++ [StreamEvent.done])
          (([] ++ [ChatMessage.mk Role.user "2 + 2"]) ++
            [ChatMessage.mk Role.assistant "4"]) ∧
      tokenConcat (streamChars "4" ++ [StreamEvent.done]) = "4") ∧
    (("4" : String) = "" →
      chatRouteGemini [] (fun _ => LLMCallResult.ok ⟨"4", [], []⟩) []
          ⟨some "2 + 2", none⟩ =
        RouteResult.streamed [StreamEvent.done]
          (([] ++ [ChatMessage.mk Role.user "2 + 2"]) ++
            [ChatMessage.mk Role.assistant emptyResponseOutput])) :=
  final_answer_tokens_amended [] (fun _ => LLMCallResult.ok ⟨"4", [], []⟩)
    [] ⟨some "2 + 2", none⟩ ("2 + 2", "default") ⟨"4", [], []⟩ rfl rfl
    (by decide)

/-- C4: The manual agent loop performs at most the configured maximum of
5 completion rounds for every turn; under a completion engine that
requests tools on every round — so the tool-call chain would need more
rounds — the loop still terminates after exactly 5 rounds without
raising an error, a non-empty answer is committed for the turn, and the
`done` frame is still emitted last. -/
theorem round_budget_respected
    (tools : List Tool) (llm : Nat → LLMCallResult)
    (session : List ChatMessage) (req : RawChatRequest) (ms : String × String)
    (hv : chatRequestParse req = some ms)
    (hloop : ∀ n, ∃ r tcs, llm n = LLMCallResult.ok r ∧
      effectiveToolCalls r = Except.ok tcs ∧ tcs ≠ []) :
    (∀ (tools2 : List Tool) (llm2 : Nat → LLMCallResult)
        (history : List BaseMessage) (input : String),
      (executorInvoke tools2 llm2 history input).calls ≤ 5) ∧
    (executorInvoke tools llm
      (getLangChainMessages (session ++ [ChatMessage.mk Role.user ms.1]))
      ms.1).calls = 5 ∧
    (∃ evs out,
      chatRouteGemini tools llm session req =
        RouteResult.streamed (evs ++ [StreamEvent.done])
          ((session ++ [ChatMessage.mk Role.user ms.1]) ++
            [ChatMessage.mk Role.assistant out]) ∧
      out ≠ "" ∧ (evs ++ [StreamEvent.done]).getLast? = some StreamEvent.done) := by
  refine ⟨?_, ?_, ?_⟩
  · intro tools2 llm2 history input
    have h := geminiLoop_calls_le tools2 llm2 5 0
      (history ++ [BaseMessage.human input]) [] 0
    simpa [executorInvoke] using h
  · have h := geminiLoop_calls_eq tools llm 5 0
      (getLangChainMessages (session ++ [ChatMessage.mk Role.user ms.1]) ++
        [BaseMessage.human ms.1]) [] 0 hloop
    simpa [executorInvoke] using h
  · obtain ⟨res, hres⟩ := geminiLoop_ok_of_toolloop tools llm 5 0
      (getLangChainMessages (session ++ [ChatMessage.mk Role.user ms.1]) ++
        [BaseMessage.human ms.1]) [] 0 hloop
    exact ⟨res.events, res.output,
      chatRouteGemini_ok_eq tools llm session req ms res hv hres,
      geminiLoop_output_ne_empty tools llm 5 0 _ [] 0 res hres,
      getLast_concat_event _ _⟩

/-- Witness for C4 under an engine that always requests the same
unregistered tool. -/
theorem round_budget_respected_witness :
    (∀ (tools2 : List Tool) (llm2 : Nat → LLMCallResult)
        (history : List BaseMessage) (input : String),
      (executorInvoke tools2 llm2 history input).calls ≤ 5) ∧
    (executorInvoke []
      (fun _ => LLMCallResult.ok ⟨"t", [⟨"x", "a"⟩], []⟩)
      (getLangChainMessages ([] ++ [ChatMessage.mk Role.user "go"]))
      "go").calls = 5 ∧
    (∃ evs out,
      chatRouteGemini [] (fun _ => LLMCallResult.ok ⟨"t", [⟨"x", "a"⟩], []⟩)
          [] ⟨some "go", none⟩ =
        RouteResult.streamed (evs ++ [StreamEvent.done])
          (([] ++ [ChatMessage.mk Role.user "go"]) ++
            [ChatMessage.mk Role.assistant out]) ∧
      out ≠ "" ∧ (evs ++ [StreamEvent.done]).getLast? = some StreamEvent.done) :=
  round_budget_respected [] (fun _ => LLMCallResult.ok ⟨"t", [⟨"x", "a"⟩], []⟩)
    [] ⟨some "go", none⟩ ("go", "default") rfl
    (fun _ => ⟨⟨"t", [⟨"x", "a"⟩], []⟩, [⟨"x", "a"⟩], rfl, by decide, by decide⟩)

/-- C5: A registered tool executor that throws never aborts the turn:
the thrown message text is recorded (as
`Tool <name> error: <message>`) in the working message sequence as the
tool result, and the loop proceeds to request another completion while
budget remains. -/
theorem tool_throw_recoverable
    (tools : List Tool) (llm : Nat → LLMCallResult) (fuel callIdx : Nat)
    (messages : List BaseMessage) (events : List StreamEvent) (calls : Nat)
    (r : LLMResponse) (t : Tool) (args m : String)
    (hllm : llm callIdx = LLMCallResult.ok r)
    (htc : effectiveToolCalls r = Except.ok [ToolCall.mk t.name args])
    (hfind : toolMapGet tools t.name = some t)
    (hthrow : t.exec args = ToolOutcome.thrown m) :
    geminiLoop tools llm (fuel + 1) callIdx messages events calls =
      geminiLoop tools llm fuel (callIdx + 1)
        (messages ++
          [BaseMessage.ai r.content [ToolCall.mk t.name args],
           BaseMessage.ai ("Tool " ++ t.name ++ " error: " ++ m) []])
        (events ++ [StreamEvent.toolCall t.name args]) (calls + 1) ∧
    (1 ≤ fuel →
      calls + 2 ≤
        (geminiLoop tools llm (fuel + 1) callIdx messages events calls).calls) := by
  have hne : [ToolCall.mk t.name args] ≠ ([] : List ToolCall) := by simp
  have hmain : geminiLoop tools llm (fuel + 1) callIdx messages events calls =
      geminiLoop tools llm fuel (callIdx + 1)
        (messages ++
          [BaseMessage.ai r.content [ToolCall.mk t.name args],
           BaseMessage.ai ("Tool " ++ t.name ++ " error: " ++ m) []])
        (events ++ [StreamEvent.toolCall t.name args]) (calls + 1) := by
    simp only [geminiLoop, hllm, htc]
    rw [if_neg hne]
    simp [execToolCalls, execToolCall, hfind, hthrow]
  refine ⟨hmain, fun hf => ?_⟩
  rw [hmain]
  have h1 := geminiLoop_calls_ge_one tools llm fuel (callIdx + 1)
    (messages ++
      [BaseMessage.ai r.content [ToolCall.mk t.name args],
       BaseMessage.ai ("Tool " ++ t.name ++ " error: " ++ m) []])
    (events ++ [StreamEvent.toolCall t.name args]) (calls + 1) hf
  omega

/-- Witness for C5: a registered calculator tool that throws `"boom"`. -/
theorem tool_throw_recoverable_witness :
    geminiLoop [Tool.mk "calculator" (fun _ => ToolOutcome.thrown "boom")]
        (fun k => if k = 0 then LLMCallResult.ok ⟨"t", [⟨"calculator", "7"⟩], []⟩
                  else LLMCallResult.ok ⟨"fin", [], []⟩)
        (1 + 1) 0 [BaseMessage.human "go"] [] 0 =
      geminiLoop [Tool.mk "calculator" (fun _ => ToolOutcome.thrown "boom")]
        (fun k => if k = 0 then LLMCallResult.ok ⟨"t", [⟨"calculator", "7"⟩], []⟩
                  else LLMCallResult.ok ⟨"fin", [], []⟩)
        1 (0 + 1)
        ([BaseMessage.human "go"] ++
          [BaseMessage.ai "t"
            [ToolCall.mk
              (Tool.mk "calculator" (fun _ => ToolOutcome.thrown "boom")).name "7"],
           BaseMessage.ai
            ("Tool " ++
              (Tool.mk "calculator" (fun _ => ToolOutcome.thrown "boom")).name ++
              " error: " ++ "boom") []])
        ([] ++
          [StreamEvent.toolCall
            (Tool.mk "calculator" (fun _ => ToolOutcome.thrown "boom")).name "7"])
        (0 + 1) ∧
    (1 ≤ 1 →
      0 + 2 ≤
        (geminiLoop [Tool.mk "calculator" (fun _ => ToolOutcome.thrown "boom")]
          (fun k => if k = 0 then LLMCallResult.ok ⟨"t", [⟨"calculator", "7"⟩], []⟩
                    else LLMCallResult.ok ⟨"fin", [], []⟩)
          (1 + 1) 0 [BaseMessage.human "go"] [] 0).calls) :=
  tool_throw_recoverable _ _ 1 0 _ _ 0 ⟨"t", [⟨"calculator", "7"⟩], []⟩
    (Tool.mk "calculator" (fun _ => ToolOutcome.thrown "boom")) "7" "boom"
    rfl (by decide) rfl rfl


/-- C6 counterexample: a registered tool whose executor throws. The
round emits the `tool_call` frame but NO `tool_result` frame — the
error text goes only into the working sequence — contrary to the claim
that a `toolResult` event carrying the error text is emitted when
execution fails. -/
theorem tool_events_counterexample :
    execToolCall [Tool.mk "calculator" (fun _ => ToolOutcome.thrown "boom")]
        (ToolCall.mk "calculator" "7") =
      ([StreamEvent.toolCall "calculator" "7"],
       BaseMessage.ai "Tool calculator error: boom" []) ∧
    countToolResult [StreamEvent.toolCall "calculator" "7"] = 0 :=
  ⟨rfl, rfl⟩

/-- C6 amended: for every tool call the loop emits a `tool_call` frame
before execution; a `tool_result` frame carrying the output follows
only when execution succeeds. When the executor throws, or the tool is
not registered, no `tool_result` frame is emitted and the error text is
recorded only in the working sequence (for an unregistered tool the
`tool_call` frame carries the name `unknown`). -/
theorem tool_events_amended (tools : List Tool) (tc : ToolCall) :
    (∀ t out, toolMapGet tools tc.name = some t →
      t.exec tc.args = ToolOutcome.ok out →
      execToolCall tools tc =
        ([StreamEvent.toolCall t.name tc.args, StreamEvent.toolResult out],
         BaseMessage.ai ("Tool " ++ tc.name ++ " returned: " ++ out) [])) ∧
    (∀ t m, toolMapGet tools tc.name = some t →
      t.exec tc.args = ToolOutcome.thrown m →
      execToolCall tools tc =
        ([StreamEvent.toolCall t.name tc.args],
         BaseMessage.ai ("Tool " ++ tc.name ++ " error: " ++ m) []) ∧
      countToolResult (execToolCall tools tc).1 = 0) ∧
    (toolMapGet tools tc.name = none →
      execToolCall tools tc =
        ([StreamEvent.toolCall "unknown" tc.args],
         BaseMessage.ai
           ("Tool " ++ tc.name ++ " error: Tool " ++ tc.name ++ " not found")
           []) ∧
      countToolResult (execToolCall tools tc).1 = 0) := by
  refine ⟨?_, ?_, ?_⟩
  · intro t out hfind hok
    simp [execToolCall, hfind, hok]
  · intro t m hfind hthrow
    have h : execToolCall tools tc =
        ([StreamEvent.toolCall t.name tc.args],
         BaseMessage.ai ("Tool " ++ tc.name ++ " error: " ++ m) []) := by
      simp [execToolCall, hfind, hthrow]
    refine ⟨h, ?_⟩
    rw [h]
    rfl
  · intro hnone
    have h : execToolCall tools tc =
        ([StreamEvent.toolCall "unknown" tc.args],
         BaseMessage.ai
           ("Tool " ++ tc.name ++ " error: Tool " ++ tc.name ++ " not found")
           []) := by
      simp [execToolCall, hnone]
    refine ⟨h, ?_⟩
    rw [h]
    rfl

/-- Witness for C6 amended: a successful tool call emits `tool_call`
then `tool_result` with the output. -/
theorem tool_events_amended_witness :
    execToolCall [Tool.mk "w" (fun _ => ToolOutcome.ok "out")]
        (ToolCall.mk "w" "7") =
      ([StreamEvent.toolCall
          (Tool.mk "w" (fun _ => ToolOutcome.ok "out")).name "7",
        StreamEvent.toolResult "out"],
       BaseMessage.ai ("Tool " ++ "w" ++ " returned: " ++ "out") []) :=
  (tool_events_amended [Tool.mk "w" (fun _ => ToolOutcome.ok "out")]
      (ToolCall.mk "w" "7")).1
    (Tool.mk "w" (fun _ => ToolOutcome.ok "out")) "out" rfl rfl

/-- C7 counterexample: a turn that produced no answer text commits the
fallback "I apologize, but I could not generate a response." — not the
text "I could not generate a response" stated by the claim. -/
theorem fallback_text_counterexample :
    chatRouteGemini [] (fun _ => LLMCallResult.ok ⟨"", [], []⟩) []
        ⟨some "hi", none⟩ =
      RouteResult.streamed [StreamEvent.done]
        [ChatMessage.mk Role.user "hi",
         ChatMessage.mk Role.assistant emptyResponseOutput] ∧
    emptyResponseOutput ≠ "I could not generate a response" :=
  ⟨rfl, by decide⟩

/-- C7 amended: for every validated turn whose executor invocation
resolves, the assistant message is committed to the conversation store
before the `done` frame, and its content is never empty: when text was
produced it is that text, and when none was produced a
locally-generated non-empty fallback is committed instead — "I
apologize, but I could not generate a response." for an empty final
completion, "I encountered an error processing your request. Please
try again." for a failed completion call. (A turn whose invocation
rejects — the uncoercible invalid-tool-call arguments path — commits
nothing; see C2.) -/
theorem fallback_nonempty_amended
    (tools : List Tool) (llm : Nat → LLMCallResult)
    (session : List ChatMessage) (req : RawChatRequest) (ms : String × String)
    (res : InvokeResult) (hv : chatRequestParse req = some ms)
    (hres : executorInvoke tools llm
      (getLangChainMessages (session ++ [ChatMessage.mk Role.user ms.1]))
      ms.1 = InvokeOutcome.ok res) :
    chatRouteGemini tools llm session req =
      RouteResult.streamed (res.events ++ [StreamEvent.done])
        ((session ++ [ChatMessage.mk Role.user ms.1]) ++
          [ChatMessage.mk Role.assistant res.output]) ∧
    res.output ≠ "" ∧
    (∀ r, llm 0 = LLMCallResult.ok r →
      effectiveToolCalls r = Except.ok [] → r.content = "" →
      res.output = emptyResponseOutput) ∧
    (llm 0 = LLMCallResult.throwErr → res.output = llmErrorOutput) := by
  refine ⟨chatRouteGemini_ok_eq tools llm session req ms res hv hres,
    geminiLoop_output_ne_empty tools llm 5 0 _ [] 0 res hres, ?_, ?_⟩
  · intro r hr htc hc
    rw [executorInvoke_final tools llm
      (getLangChainMessages (session ++ [ChatMessage.mk Role.user ms.1]))
      ms.1 r hr htc] at hres
    injection hres with h
    subst h
    exact if_pos hc
  · intro hr
    rw [executorInvoke_throw tools llm
      (getLangChainMessages (session ++ [ChatMessage.mk Role.user ms.1]))
      ms.1 hr] at hres
    injection hres with h
    subst h
    rfl

/-- Witness for C7 amended at a failing completion engine. -/
theorem fallback_nonempty_amended_witness :
    (chatRouteGemini [] (fun _ => LLMCallResult.throwErr) []
        ⟨some "hi", none⟩ =
      RouteResult.streamed ([] ++ [StreamEvent.done])
        (([] ++ [ChatMessage.mk Role.user "hi"]) ++
          [ChatMessage.mk Role.assistant llmErrorOutput])) ∧
    llmErrorOutput ≠ "" ∧
    (∀ r, (fun _ => LLMCallResult.throwErr) 0 = LLMCallResult.ok r →
      effectiveToolCalls r = Except.ok [] → r.content = "" →
      llmErrorOutput = emptyResponseOutput) ∧
    ((fun _ => LLMCallResult.throwErr) 0 = LLMCallResult.throwErr →
      llmErrorOutput = llmErrorOutput) :=
  fallback_nonempty_amended [] (fun _ => LLMCallResult.throwErr) []
    ⟨some "hi", none⟩ ("hi", "default")
    ⟨llmErrorOutput, [], [BaseMessage.human "hi", BaseMessage.human "hi"], 1⟩
    rfl rfl

/-- C8 counterexample: a turn with one tool round followed by a final
answer. The working message sequence after the turn ends with the
tool-result record: the assistant's answer is returned and committed to
the session store but never appended to the working sequence — contrary
to the claim that the working sequence contains the user message, the
tool-call record, the tool result and finally the assistant's answer. -/
theorem tool_turn_sequence_counterexample :
    executorInvoke [Tool.mk "lookup" (fun _ => ToolOutcome.ok "X")]
        (fun k => if k = 0 then LLMCallResult.ok ⟨"", [⟨"lookup", "q"⟩], []⟩
                  else LLMCallResult.ok ⟨"Answer based on X", [], []⟩)
        [] "find" =
      InvokeOutcome.ok
        ⟨"Answer based on X",
         [StreamEvent.toolCall "lookup" "q", StreamEvent.toolResult "X"] ++
           streamChars "Answer based on X",
         [BaseMessage.human "find",
          BaseMessage.ai "" [ToolCall.mk "lookup" "q"],
          BaseMessage.ai "Tool lookup returned: X" []],
         2⟩ ∧
    (∀ msg ∈
      [BaseMessage.human "find",
       BaseMessage.ai "" [ToolCall.mk "lookup" "q"],
       BaseMessage.ai "Tool lookup returned: X" []],
      BaseMessage.content msg ≠ "Answer based on X") :=
  ⟨rfl, by decide⟩

/-- C8 amended: for a turn with one tool round, tool calls execute
sequentially in request order, and the working sequence after the turn
contains, in order: the user message, the assistant message recording
the tool call, and the tool-result record — the tool result never
preceding its triggering record. The assistant's final answer is the
returned output (committed to the session store by the route), not a
member of the working sequence. -/
theorem tool_turn_sequence_amended
    (tools : List Tool) (llm : Nat → LLMCallResult)
    (chat_history : List BaseMessage) (input : String)
    (r0 r1 : LLMResponse) (tc : ToolCall) (t : Tool) (out : String)
    (h0 : llm 0 = LLMCallResult.ok r0)
    (htc : effectiveToolCalls r0 = Except.ok [tc])
    (hfind : toolMapGet tools tc.name = some t)
    (hok : t.exec tc.args = ToolOutcome.ok out)
    (h1 : llm 1 = LLMCallResult.ok r1)
    (hr1 : effectiveToolCalls r1 = Except.ok [])
    (hc : r1.content ≠ "") :
    executorInvoke tools llm chat_history input =
      InvokeOutcome.ok
        ⟨r1.content,
         [StreamEvent.toolCall t.name tc.args, StreamEvent.toolResult out] ++
           streamChars r1.content,
         (chat_history ++ [BaseMessage.human input]) ++
           [BaseMessage.ai r0.content [tc],
            BaseMessage.ai ("Tool " ++ tc.name ++ " returned: " ++ out) []],
         2⟩ ∧
    (∀ tcs : List ToolCall,
      (execToolCalls tools tcs).2 = tcs.map fun c => (execToolCall tools c).2) := by
  constructor
  · have hne : [tc] ≠ ([] : List ToolCall) := by simp
    have s1 : geminiLoop tools llm (4 + 1) 0
        (chat_history ++ [BaseMessage.human input]) [] 0 =
        geminiLoop tools llm 4 1
          ((chat_history ++ [BaseMessage.human input]) ++
            [BaseMessage.ai r0.content [tc],
             BaseMessage.ai ("Tool " ++ tc.name ++ " returned: " ++ out) []])
          [StreamEvent.toolCall t.name tc.args, StreamEvent.toolResult out]
          (0 + 1) := by
      simp only [geminiLoop, h0, htc]
      rw [if_neg hne]
      simp [execToolCalls, execToolCall, hfind, hok]
    have s2 := geminiLoop_final tools llm 3 1
      ((chat_history ++ [BaseMessage.human input]) ++
        [BaseMessage.ai r0.content [tc],
         BaseMessage.ai ("Tool " ++ tc.name ++ " returned: " ++ out) []])
      [StreamEvent.toolCall t.name tc.args, StreamEvent.toolResult out]
      1 r1 h1 hr1
    rw [if_neg hc] at s2
    exact s1.trans s2
  · intro tcs
    induction tcs with
    | nil => rfl
    | cons c rest ih => simp [execToolCalls, ih]

/-- Witness for C8 amended at the concrete lookup-tool turn. -/
theorem tool_turn_sequence_amended_witness :
    executorInvoke [Tool.mk "lookup" (fun _ => ToolOutcome.ok "X")]
        (fun k => if k = 0 then LLMCallResult.ok ⟨"", [⟨"lookup", "q"⟩], []⟩
                  else LLMCallResult.ok ⟨"Answer based on X", [], []⟩)
        [] "find" =
      InvokeOutcome.ok
        ⟨"Answer based on X",
         [StreamEvent.toolCall
            (Tool.mk "lookup" (fun _ => ToolOutcome.ok "X")).name "q",
          StreamEvent.toolResult "X"] ++ streamChars "Answer based on X",
         ([] ++ [BaseMessage.human "find"]) ++
           [BaseMessage.ai "" [ToolCall.mk "lookup" "q"],
            BaseMessage.ai ("Tool " ++ "lookup" ++ " returned: " ++ "X") []],
         2⟩ ∧
    (∀ tcs : List ToolCall,
      (execToolCalls [Tool.mk "lookup" (fun _ => ToolOutcome.ok "X")] tcs).2 =
        tcs.map fun c =>
          (execToolCall [Tool.mk "lookup" (fun _ => ToolOutcome.ok "X")] c).2) :=
  tool_turn_sequence_amended
    [Tool.mk "lookup" (fun _ => ToolOutcome.ok "X")]
    (fun k => if k = 0 then LLMCallResult.ok ⟨"", [⟨"lookup", "q"⟩], []⟩
              else LLMCallResult.ok ⟨"Answer based on X", [], []⟩)
    [] "find" ⟨"", [⟨"lookup", "q"⟩], []⟩ ⟨"Answer based on X", [], []⟩
    (ToolCall.mk "lookup" "q") (Tool.mk "lookup" (fun _ => ToolOutcome.ok "X"))
    "X" rfl (by decide) rfl rfl rfl (by decide) (by decide)

/-- C9: Every inbound turn request whose message field is the empty
string or missing is rejected with the structured 400 validation
response (a distinct `badRequest` result, not an in-stream `error`
frame) before any message is appended to the session and before any
streaming starts: for every executor, the route returns `badRequest`
carrying the unchanged session and emits no frame. -/
theorem chatRoute_rejects_empty_message
    (session : List ChatMessage) (req : RawChatRequest)
    (h : req.message = none ∨ req.message = some "") :
    ∀ exec, chatRouteWith exec session req = RouteResult.badRequest session := by
  intro exec
  have hv : chatRequestParse req = none := by
    cases h with
    | inl h => simp [chatRequestParse, h]
    | inr h => simp [chatRequestParse, h]
  unfold chatRouteWith
  rw [hv]

/-- Witness for C9 at the concrete request with message `""`. -/
theorem chatRoute_rejects_empty_message_witness :
    chatRouteWith (fun _ _ => ExecOutcome.ok "x" []) [] ⟨some "", none⟩ =
      RouteResult.badRequest [] :=
  chatRoute_rejects_empty_message [] ⟨some "", none⟩ (Or.inr rfl) _

/-- C10: A tool-call request naming a tool absent from the registry does
not abort the turn: the synthesized record
`Tool <name> error: Tool <name> not found` is appended to the working
sequence as the tool result and the loop continues, performing at least
one further completion round while budget remains. -/
theorem unknown_tool_recoverable
    (tools : List Tool) (llm : Nat → LLMCallResult) (fuel callIdx : Nat)
    (messages : List BaseMessage) (events : List StreamEvent) (calls : Nat)
    (r : LLMResponse) (n args : String)
    (hllm : llm callIdx = LLMCallResult.ok r)
    (htc : effectiveToolCalls r = Except.ok [ToolCall.mk n args])
    (hnone : toolMapGet tools n = none) :
    geminiLoop tools llm (fuel + 1) callIdx messages events calls =
      geminiLoop tools llm fuel (callIdx + 1)
        (messages ++
          [BaseMessage.ai r.content [ToolCall.mk n args],
           BaseMessage.ai
             ("Tool " ++ n ++ " error: Tool " ++ n ++ " not found") []])
        (events ++ [StreamEvent.toolCall "unknown" args]) (calls + 1) ∧
    (1 ≤ fuel →
      calls + 2 ≤
        (geminiLoop tools llm (fuel + 1) callIdx messages events calls).calls) := by
  have hne : [ToolCall.mk n args] ≠ ([] : List ToolCall) := by simp
  have hmain : geminiLoop tools llm (fuel + 1) callIdx messages events calls =
      geminiLoop tools llm fuel (callIdx + 1)
        (messages ++
          [BaseMessage.ai r.content [ToolCall.mk n args],
           BaseMessage.ai
             ("Tool " ++ n ++ " error: Tool " ++ n ++ " not found") []])
        (events ++ [StreamEvent.toolCall "unknown" args]) (calls + 1) := by
    simp only [geminiLoop, hllm, htc]
    rw [if_neg hne]
    simp [execToolCalls, execToolCall, hnone]
  refine ⟨hmain, fun hf => ?_⟩
  rw [hmain]
  have := geminiLoop_calls_ge_one tools llm fuel (callIdx + 1)
    (messages ++
      [BaseMessage.ai r.content [ToolCall.mk n args],
       BaseMessage.ai
         ("Tool " ++ n ++ " error: Tool " ++ n ++ " not found") []])
    (events ++ [StreamEvent.toolCall "unknown" args]) (calls + 1) hf
  omega

/-- Witness for C10: one round requesting the unregistered tool `x`
against the empty registry. -/
theorem unknown_tool_recoverable_witness :
    geminiLoop []
        (fun k => if k = 0 then LLMCallResult.ok ⟨"t", [⟨"x", "a"⟩], []⟩
                  else LLMCallResult.ok ⟨"fin", [], []⟩)
        (1 + 1) 0 [BaseMessage.human "go"] [] 0 =
      geminiLoop []
        (fun k => if k = 0 then LLMCallResult.ok ⟨"t", [⟨"x", "a"⟩], []⟩
                  else LLMCallResult.ok ⟨"fin", [], []⟩)
        1 (0 + 1)
        ([BaseMessage.human "go"] ++
          [BaseMessage.ai "t" [ToolCall.mk "x" "a"],
           BaseMessage.ai "Tool x error: Tool x not found" []])
        ([] ++ [StreamEvent.toolCall "unknown" "a"]) (0 + 1) ∧
    (1 ≤ 1 →
      0 + 2 ≤
        (geminiLoop []
          (fun k => if k = 0 then LLMCallResult.ok ⟨"t", [⟨"x", "a"⟩], []⟩
                    else LLMCallResult.ok ⟨"fin", [], []⟩)
          (1 + 1) 0 [BaseMessage.human "go"] [] 0).calls) :=
  unknown_tool_recoverable _ _ 1 0 _ _ 0 ⟨"t", [⟨"x", "a"⟩], []⟩ "x" "a"
    rfl (by decide) rfl

end LangchainSample
